import Mathlib

/-!
Shallow embedding of `src/scripts/release.py`.

The script reads `Cargo.toml`, extracts `data["package"]["version"]`, parses
it with `semver.Version.parse`, and emits two key/value pairs (`version`,
`prerelease`): each pair is appended to the file named by the
`GITHUB_OUTPUT` environment variable when that variable is present, and is
printed to standard output otherwise.

Strings are modelled as `List Char`.  The `semver` library parser is the
anchored regular expression

  `(0|[1-9]\d*)\.(0|[1-9]\d*)\.(0|[1-9]\d*)(-PRE)?(\+BUILD)?`

where `PRE` is a dot-separated sequence of identifiers, each matching
`0|[1-9]\d*|\d*[a-zA-Z-][0-9a-zA-Z-]*`, and `BUILD` is a dot-separated
sequence of identifiers matching `[0-9a-zA-Z-]+`.  Digit classes are
modelled as the ASCII digits of the SemVer alphabet.  A parsed
`semver.Version` stores `major`/`minor`/`patch` as integers (Python `int`
of the matched group) and `prerelease`/`build` as the raw matched
substrings (absent groups become `None`).  `str(version)` prints
`major.minor.patch`, then `-prerelease` when the prerelease attribute is
truthy (non-`None` and non-empty), then `+build` likewise.

Because the core part of a match contains neither `-` nor `+`, the
prerelease part contains no `+`, and the build part contains no `+`, a
string matches the regular expression exactly when splitting it at its
first `+` (build) and then at the first `-` of what is left (prerelease)
yields valid components; the parser below is built on those splits.
-/

namespace ReleaseScript

/-- Characters of a Python string literal. -/
def strL (s : String) : List Char := s.data

/-- Numeric value of an ASCII digit character (as used by Python `int`). -/
def charToDigit (c : Char) : Nat := c.toNat - 48

/-- The ASCII digit character of a value below ten (as printed by Python
`str` on an `int`). -/
def digitToChar (d : Nat) : Char := Char.ofNat (48 + d)

/-- Number denoted by a little-endian list of ASCII digit characters. -/
def fromLE : List Char → Nat
  | [] => 0
  | c :: t => charToDigit c + 10 * fromLE t

/-- Number denoted by a big-endian ASCII digit string: Python `int` applied
to a matched numeric group. -/
def parseNatBE (l : List Char) : Nat := fromLE l.reverse

/-- Little-endian decimal digit expansion, with explicit fuel so that the
recursion is structural and concrete instances reduce by `rfl`. -/
def toLEAux : Nat → Nat → List Char
  | 0, _ => []
  | fuel + 1, n => if n = 0 then [] else digitToChar (n % 10) :: toLEAux fuel (n / 10)

/-- Little-endian decimal digit expansion of a natural number. -/
def toLE (n : Nat) : List Char := toLEAux n n

/-- Decimal representation of a natural number: Python `str` on an `int`. -/
def natReprBE (n : Nat) : List Char := if n = 0 then ['0'] else (toLE n).reverse

/-- Split a list at the first occurrence of `sep`, returning the parts
before and after it; `none` when `sep` does not occur. -/
def splitAtFirst (sep : Char) : List Char → Option (List Char × List Char)
  | [] => none
  | c :: t =>
    if c = sep then some ([], t)
    else
      match splitAtFirst sep t with
      | none => none
      | some (a, b) => some (c :: a, b)

/-- The regex class `0|[1-9]\d*`: a non-empty ASCII digit string with no
leading zero (a single `0` is allowed). -/
def validNumeric : List Char → Bool
  | [] => false
  | c :: t => c.isDigit && t.all Char.isDigit && (c != '0' || t.isEmpty)

/-- The regex class `[0-9a-zA-Z-]`: characters allowed in prerelease and
build identifiers. -/
def isIdentChar (c : Char) : Bool := c.isDigit || c.isAlpha || c == '-'

/-- One prerelease identifier, `0|[1-9]\d*|\d*[a-zA-Z-][0-9a-zA-Z-]*`:
non-empty, made of identifier characters, and with no leading zero when it
is purely numeric. -/
def validPreId (id : List Char) : Bool :=
  !id.isEmpty && id.all isIdentChar && (!(id.all Char.isDigit) || validNumeric id)

/-- One build identifier, `[0-9a-zA-Z-]+`. -/
def validBuildId (id : List Char) : Bool :=
  !id.isEmpty && id.all isIdentChar

/-- Split a list at every `.` (the identifier separator); the empty list
yields one empty component, like Python `"".split(".")`. -/
def splitDots : List Char → List (List Char)
  | [] => [[]]
  | c :: t =>
    if c = '.' then [] :: splitDots t
    else
      match splitDots t with
      | [] => [[c]]
      | h :: r => (c :: h) :: r

/-- The full prerelease group: dot-separated valid prerelease identifiers. -/
def validPrerelease (p : List Char) : Bool := (splitDots p).all validPreId

/-- The full build group: dot-separated valid build identifiers. -/
def validBuild (b : List Char) : Bool := (splitDots b).all validBuildId

/-- `semver.Version`: the parsed value object.  `prerelease` and `build`
hold the raw matched substrings; absent groups are `none`. -/
structure Version where
  major : Nat
  minor : Nat
  patch : Nat
  prerelease : Option (List Char)
  build : Option (List Char)
deriving DecidableEq, Repr

/-- Parse the `major.minor.patch` core: two dot-splits and three numeric
groups, converted with Python `int`. -/
def parseCore (core : List Char) : Option (Nat × Nat × Nat) :=
  match splitAtFirst '.' core with
  | none => none
  | some (ma, rest) =>
    match splitAtFirst '.' rest with
    | none => none
    | some (mi, pa) =>
      if validNumeric ma && validNumeric mi && validNumeric pa then
        some (parseNatBE ma, parseNatBE mi, parseNatBE pa)
      else
        none

/-- Detach the build metadata at the first `+`, when present. -/
def splitBuild (s : List Char) : List Char × Option (List Char) :=
  match splitAtFirst '+' s with
  | none => (s, none)
  | some (a, b) => (a, some b)

/-- Detach the prerelease label at the first `-`, when present. -/
def splitPre (s : List Char) : List Char × Option (List Char) :=
  match splitAtFirst '-' s with
  | none => (s, none)
  | some (a, b) => (a, some b)

/-- Validity of an optional regex group: an absent group is fine, a present
one must match its sub-expression. -/
def validOptGroup (check : List Char → Bool) : Option (List Char) → Bool
  | none => true
  | some g => check g

/-- `semver.Version.parse`: match the anchored SemVer regular expression and
build the `Version`; `none` models the `ValueError` raised on no match. -/
def parseVersion (s : List Char) : Option Version :=
  match parseCore (splitPre (splitBuild s).1).1 with
  | none => none
  | some (ma, mi, pa) =>
    if validOptGroup validPrerelease (splitPre (splitBuild s).1).2
        && validOptGroup validBuild (splitBuild s).2 then
      some ⟨ma, mi, pa, (splitPre (splitBuild s).1).2, (splitBuild s).2⟩
    else
      none

/-- `str(version)`: `major.minor.patch`, then `-prerelease` when the
prerelease attribute is truthy, then `+build` likewise. -/
def versionStr (v : Version) : List Char :=
  natReprBE v.major ++ '.' :: natReprBE v.minor ++ '.' :: natReprBE v.patch
    ++ (match v.prerelease with
        | none => []
        | some p => if p.isEmpty then [] else '-' :: p)
    ++ (match v.build with
        | none => []
        | some b => if b.isEmpty then [] else '+' :: b)

/-- `bool(version.prerelease)`: `False` for `None` and for the empty
string, `True` for a non-empty label. -/
def prereleaseFlag (v : Version) : Bool :=
  match v.prerelease with
  | none => false
  | some p => !p.isEmpty

/-- `str(b).lower()` for a Python `bool`. -/
def boolStrLower (b : Bool) : List Char :=
  if b then strL "true" else strL "false"

/-- Exceptions the script can raise: `KeyError` from the manifest lookups,
`ValueError` from `semver.Version.parse`, `OSError` from opening the
output file. -/
inductive Err where
  | keyError
  | valueError
  | ioError
deriving DecidableEq, Repr

/-- The `[package]` table of the manifest; `version` is absent when the
manifest has no version field. -/
structure PackageTable where
  version : Option (List Char)
deriving DecidableEq, Repr

/-- The manifest data as loaded by `tomllib.load` from `Cargo.toml`. -/
structure TomlData where
  package : Option PackageTable
deriving DecidableEq, Repr

/-- `read_version`: look up `data["package"]["version"]` (each missing key
raises `KeyError`) and parse it (`ValueError` on an invalid version). -/
def read_version (d : TomlData) : Except Err Version :=
  match d.package with
  | none => .error .keyError
  | some pkg =>
    match pkg.version with
    | none => .error .keyError
    | some s =>
      match parseVersion s with
      | none => .error .valueError
      | some v => .ok v

/-- The process environment: `GITHUB_OUTPUT` is `some path` when the
variable is present (with that value, possibly empty) and `none` when it is
unset. -/
structure Env where
  githubOutput : Option (List Char)
deriving DecidableEq, Repr

/-- The observable world: what has been written to standard output and to
the file named by `GITHUB_OUTPUT`. -/
structure World where
  stdout : List Char
  file : List Char
deriving DecidableEq, Repr

/-- `github_output(key, value)`.  When `GITHUB_OUTPUT` is not in the
environment, `print(f"{key}={value}")` appends `key=value` and a newline to
standard output.  Otherwise the file named by the variable is opened for
append — `writable` tells which paths can be opened; a failed open raises
`OSError` and writes nothing — and `f.write(f"{key}={value}")` appends
`key=value` (no newline) to it. -/
def github_output (env : Env) (writable : List Char → Bool)
    (key value : List Char) (w : World) : Except Err World :=
  match env.githubOutput with
  | none => .ok { w with stdout := w.stdout ++ key ++ '=' :: value ++ ['\n'] }
  | some path =>
    if writable path then
      .ok { w with file := w.file ++ key ++ '=' :: value }
    else
      .error .ioError

/-- `main()`: read the version, then emit `version` and `prerelease` in that
order.  The result is the final world together with the uncaught exception,
if any; an exception aborts the run at the point it is raised, keeping the
effects already performed. -/
def main (d : TomlData) (env : Env) (writable : List Char → Bool)
    (w : World) : World × Option Err :=
  match read_version d with
  | .error e => (w, some e)
  | .ok version =>
    match github_output env writable (strL "version") (versionStr version) w with
    | .error e => (w, some e)
    | .ok w1 =>
      match github_output env writable (strL "prerelease")
          (boolStrLower (prereleaseFlag version)) w1 with
      | .error e => (w1, some e)
      | .ok w2 => (w2, none)

/-! Facts about ASCII digits and the decimal representation. -/

theorem isDigit_bounds {c : Char} (h : c.isDigit = true) :
    48 ≤ c.toNat ∧ c.toNat ≤ 57 := by
  simp only [Char.isDigit, Bool.and_eq_true, decide_eq_true_eq] at h
  exact h

theorem digitToChar_charToDigit {c : Char} (h : c.isDigit = true) :
    digitToChar (charToDigit c) = c := by
  obtain ⟨h1, _⟩ := isDigit_bounds h
  unfold digitToChar charToDigit
  rw [Nat.add_sub_cancel' h1]
  exact Char.ofNat_toNat c

theorem charToDigit_lt_ten {c : Char} (h : c.isDigit = true) :
    charToDigit c < 10 := by
  obtain ⟨_, h2⟩ := isDigit_bounds h
  unfold charToDigit
  omega

theorem charToDigit_ne_zero {c : Char} (h : c.isDigit = true) (hne : c ≠ '0') :
    charToDigit c ≠ 0 := by
  obtain ⟨h1, _⟩ := isDigit_bounds h
  intro hz
  apply hne
  have ht : c.toNat = 48 := by
    unfold charToDigit at hz
    omega
  have h3 := Char.ofNat_toNat c
  rw [ht] at h3
  exact h3.symm.trans (by decide)

theorem toLEAux_fuel : ∀ f g n : Nat, n ≤ f → n ≤ g → toLEAux f n = toLEAux g n := by
  intro f
  induction f with
  | zero =>
    intro g n hf _
    have hn : n = 0 := Nat.le_zero.mp hf
    subst hn
    cases g <;> simp [toLEAux]
  | succ f ih =>
    intro g n hf hg
    cases g with
    | zero =>
      have hn : n = 0 := Nat.le_zero.mp hg
      subst hn
      simp [toLEAux]
    | succ g =>
      simp only [toLEAux]
      by_cases hn : n = 0
      · simp [hn]
      · simp only [hn, if_false]
        have hlt : n / 10 < n := Nat.div_lt_self (Nat.pos_of_ne_zero hn) (by norm_num)
        have h1 : n / 10 ≤ f := by omega
        have h2 : n / 10 ≤ g := by omega
        rw [ih g (n / 10) h1 h2]

theorem toLE_unfold (n : Nat) :
    toLE n = if n = 0 then [] else digitToChar (n % 10) :: toLE (n / 10) := by
  cases n with
  | zero => rfl
  | succ m =>
    show toLEAux (m + 1) (m + 1) = _
    simp only [toLEAux, Nat.succ_ne_zero, if_false]
    have hlt : (m + 1) / 10 < m + 1 := Nat.div_lt_self (Nat.succ_pos m) (by norm_num)
    rw [toLEAux_fuel m ((m + 1) / 10) ((m + 1) / 10) (by omega) (Nat.le_refl _)]
    rfl

theorem toLE_zero : toLE 0 = [] := rfl

theorem toLE_fromLE : ∀ ds : List Char, (∀ c ∈ ds, c.isDigit = true) →
    ds.getLast? ≠ some '0' → toLE (fromLE ds) = ds := by
  intro ds
  induction ds with
  | nil => intro _ _; rfl
  | cons d t ih =>
    intro hdig hlast
    have hd : d.isDigit = true := hdig d (List.mem_cons_self d t)
    cases t with
    | nil =>
      have hdne : d ≠ '0' := by
        intro he
        exact hlast (by rw [he]; rfl)
      have hcd := charToDigit_lt_ten hd
      have hcne := charToDigit_ne_zero hd hdne
      have hfl : fromLE [d] = charToDigit d := by simp [fromLE]
      rw [hfl, toLE_unfold, if_neg hcne, Nat.mod_eq_of_lt hcd, Nat.div_eq_of_lt hcd,
        toLE_zero, digitToChar_charToDigit hd]
    | cons e t' =>
      have hlast' : (e :: t').getLast? ≠ some '0' := by
        rwa [List.getLast?_cons_cons] at hlast
      have ht : toLE (fromLE (e :: t')) = e :: t' :=
        ih (fun c hc => hdig c (List.mem_cons_of_mem d hc)) hlast'
      have hm0 : fromLE (e :: t') ≠ 0 := by
        intro h0
        rw [h0, toLE_zero] at ht
        exact List.cons_ne_nil e t' ht.symm
      have hcd := charToDigit_lt_ten hd
      have hfl : fromLE (d :: e :: t') = charToDigit d + 10 * fromLE (e :: t') := rfl
      have hne : charToDigit d + 10 * fromLE (e :: t') ≠ 0 := by omega
      have e1 : (charToDigit d + 10 * fromLE (e :: t')) % 10 = charToDigit d := by omega
      have e2 : (charToDigit d + 10 * fromLE (e :: t')) / 10 = fromLE (e :: t') := by omega
      rw [hfl, toLE_unfold, if_neg hne, e1, e2, ht, digitToChar_charToDigit hd]

theorem natReprBE_parseNatBE {l : List Char} (h : validNumeric l = true) :
    natReprBE (parseNatBE l) = l := by
  cases l with
  | nil => simp [validNumeric] at h
  | cons c t =>
    simp only [validNumeric, Bool.and_eq_true, Bool.or_eq_true, bne_iff_ne, ne_eq,
      List.isEmpty_iff, List.all_eq_true] at h
    obtain ⟨⟨hc, ht⟩, hz⟩ := h
    by_cases hc0 : c = '0'
    · have htnil : t = [] := by
        rcases hz with hz | hz
        · exact absurd hc0 hz
        · exact hz
      subst htnil
      subst hc0
      rfl
    · have hds : ∀ x ∈ (c :: t).reverse, x.isDigit = true := by
        intro x hx
        rw [List.mem_reverse] at hx
        rcases List.mem_cons.mp hx with hx | hx
        · rw [hx]; exact hc
        · exact ht x hx
      have hlast : (c :: t).reverse.getLast? ≠ some '0' := by
        rw [List.getLast?_reverse]
        simp only [List.head?_cons, ne_eq, Option.some.injEq]
        exact hc0
      have hle := toLE_fromLE _ hds hlast
      have hne : fromLE (c :: t).reverse ≠ 0 := by
        intro h0
        rw [h0, toLE_zero] at hle
        have : (c :: t).reverse = [] := hle.symm
        simp at this
      unfold natReprBE parseNatBE
      rw [if_neg hne, hle, List.reverse_reverse]

/-! Reconstruction facts for the splitting combinators and the parser. -/

theorem splitAtFirst_eq : ∀ {l : List Char} {sep : Char} {a b : List Char},
    splitAtFirst sep l = some (a, b) → l = a ++ sep :: b := by
  intro l
  induction l with
  | nil => intro sep a b h; simp [splitAtFirst] at h
  | cons c t ih =>
    intro sep a b h
    simp only [splitAtFirst] at h
    by_cases hc : c = sep
    · rw [if_pos hc] at h
      simp only [Option.some.injEq, Prod.mk.injEq] at h
      obtain ⟨ha, hb⟩ := h
      rw [← ha, ← hb, hc]
      rfl
    · rw [if_neg hc] at h
      cases hs : splitAtFirst sep t with
      | none => rw [hs] at h; simp at h
      | some ab =>
        obtain ⟨a', b'⟩ := ab
        rw [hs] at h
        simp only [Option.some.injEq, Prod.mk.injEq] at h
        obtain ⟨ha, hb⟩ := h
        rw [← ha, ← hb]
        have := ih hs
        rw [this]
        rfl

theorem splitBuild_eq_none {s a : List Char} (h : splitBuild s = (a, none)) :
    s = a := by
  unfold splitBuild at h
  cases hs : splitAtFirst '+' s with
  | none =>
    rw [hs] at h
    simp only [Prod.mk.injEq] at h
    exact h.1
  | some ab =>
    obtain ⟨x, y⟩ := ab
    rw [hs] at h
    simp at h

theorem splitBuild_eq_some {s a b : List Char} (h : splitBuild s = (a, some b)) :
    s = a ++ '+' :: b := by
  unfold splitBuild at h
  cases hs : splitAtFirst '+' s with
  | none =>
    rw [hs] at h
    simp at h
  | some ab =>
    obtain ⟨x, y⟩ := ab
    rw [hs] at h
    simp only [Prod.mk.injEq, Option.some.injEq] at h
    obtain ⟨hx, hy⟩ := h
    subst hx
    subst hy
    exact splitAtFirst_eq hs

theorem splitPre_eq_none {s a : List Char} (h : splitPre s = (a, none)) :
    s = a := by
  unfold splitPre at h
  cases hs : splitAtFirst '-' s with
  | none =>
    rw [hs] at h
    simp only [Prod.mk.injEq] at h
    exact h.1
  | some ab =>
    obtain ⟨x, y⟩ := ab
    rw [hs] at h
    simp at h

theorem splitPre_eq_some {s a b : List Char} (h : splitPre s = (a, some b)) :
    s = a ++ '-' :: b := by
  unfold splitPre at h
  cases hs : splitAtFirst '-' s with
  | none =>
    rw [hs] at h
    simp at h
  | some ab =>
    obtain ⟨x, y⟩ := ab
    rw [hs] at h
    simp only [Prod.mk.injEq, Option.some.injEq] at h
    obtain ⟨hx, hy⟩ := h
    subst hx
    subst hy
    exact splitAtFirst_eq hs

theorem parseCore_eq {core : List Char} {x y z : Nat}
    (h : parseCore core = some (x, y, z)) :
    core = natReprBE x ++ '.' :: natReprBE y ++ '.' :: natReprBE z := by
  unfold parseCore at h
  split at h
  · exact absurd h (by simp)
  next ma rest h1 =>
    split at h
    · exact absurd h (by simp)
    next mi pa h2 =>
      split at h
      next hv =>
        simp only [Option.some.injEq, Prod.mk.injEq] at h
        obtain ⟨hx, hy, hz⟩ := h
        simp only [Bool.and_eq_true] at hv
        rw [splitAtFirst_eq h1, splitAtFirst_eq h2, ← hx, ← hy, ← hz,
          natReprBE_parseNatBE hv.1.1, natReprBE_parseNatBE hv.1.2,
          natReprBE_parseNatBE hv.2]
        simp
      next hv => exact absurd h (by simp)
theorem validPrerelease_ne_nil {p : List Char} (h : validPrerelease p = true) :
    p ≠ [] := by
  intro he
  rw [he] at h
  exact absurd h (by decide)

theorem validBuild_ne_nil {b : List Char} (h : validBuild b = true) :
    b ≠ [] := by
  intro he
  rw [he] at h
  exact absurd h (by decide)

/-- Structure of a successful parse: the input decomposes into the core and
the optional raw prerelease and build groups held by the resulting
`Version`, and those groups passed their validity checks. -/
theorem parseVersion_eq_some {s : List Char} {v : Version}
    (h : parseVersion s = some v) :
    ∃ core : List Char,
      parseCore core = some (v.major, v.minor, v.patch) ∧
      s = core ++ (match v.prerelease with | none => [] | some p => '-' :: p)
               ++ (match v.build with | none => [] | some b => '+' :: b) ∧
      (v.prerelease = none ∨
        ∃ p, v.prerelease = some p ∧ validPrerelease p = true) ∧
      (v.build = none ∨ ∃ b, v.build = some b ∧ validBuild b = true) := by
  unfold parseVersion at h
  rcases hsb : splitBuild s with ⟨rest, bu⟩
  rw [hsb] at h
  rcases hsp : splitPre rest with ⟨core, pre⟩
  rw [hsp] at h
  dsimp only at h
  split at h
  · exact absurd h (by simp)
  next ma mi pa hc =>
    split at h
    next hval =>
      simp only [Option.some.injEq] at h
      subst h
      simp only [Bool.and_eq_true] at hval
      obtain ⟨hvp, hvb⟩ := hval
      refine ⟨core, hc, ?_, ?_, ?_⟩
      · dsimp only
        cases pre with
        | none =>
          have h1 := splitPre_eq_none hsp
          cases bu with
          | none =>
            have h2 := splitBuild_eq_none hsb
            rw [h2, h1]
            simp
          | some b =>
            have h2 := splitBuild_eq_some hsb
            rw [h2, h1]
            simp
        | some p =>
          have h1 := splitPre_eq_some hsp
          cases bu with
          | none =>
            have h2 := splitBuild_eq_none hsb
            rw [h2, h1]
            simp
          | some b =>
            have h2 := splitBuild_eq_some hsb
            rw [h2, h1]
      · cases pre with
        | none => exact Or.inl rfl
        | some p =>
          refine Or.inr ⟨p, rfl, ?_⟩
          simpa [validOptGroup] using hvp
      · cases bu with
        | none => exact Or.inl rfl
        | some b =>
          refine Or.inr ⟨b, rfl, ?_⟩
          simpa [validOptGroup] using hvb
    next hval => exact absurd h (by simp)

/-- A parsed version never carries an empty prerelease label: the group is
either absent or non-empty. -/
theorem prerelease_inv {s : List Char} {v : Version}
    (h : parseVersion s = some v) :
    v.prerelease = none ∨ ∃ p, v.prerelease = some p ∧ p ≠ [] := by
  obtain ⟨core, _, _, hpre, _⟩ := parseVersion_eq_some h
  rcases hpre with hp | ⟨p, hp, hpv⟩
  · exact Or.inl hp
  · exact Or.inr ⟨p, hp, validPrerelease_ne_nil hpv⟩

/-! Evaluations of a whole run of `main` in each environment shape. -/

theorem main_env_none (d : TomlData) (writable : List Char → Bool) (w : World)
    {v : Version} (hv : read_version d = .ok v) :
    main d ⟨none⟩ writable w =
      ({ w with stdout := w.stdout
          ++ (strL "version=" ++ versionStr v ++ ['\n'])
          ++ (strL "prerelease=" ++ boolStrLower (prereleaseFlag v) ++ ['\n']) }, none) := by
  have e1 : strL "version=" = strL "version" ++ ['='] := rfl
  have e2 : strL "prerelease=" = strL "prerelease" ++ ['='] := rfl
  rw [e1, e2]
  simp [main, hv, github_output, List.append_assoc]

theorem main_env_some_writable (d : TomlData) (writable : List Char → Bool)
    (w : World) {v : Version} {path : List Char}
    (hv : read_version d = .ok v) (hw : writable path = true) :
    main d ⟨some path⟩ writable w =
      ({ w with file := w.file
          ++ (strL "version=" ++ versionStr v)
          ++ (strL "prerelease=" ++ boolStrLower (prereleaseFlag v)) }, none) := by
  have e1 : strL "version=" = strL "version" ++ ['='] := rfl
  have e2 : strL "prerelease=" = strL "prerelease" ++ ['='] := rfl
  rw [e1, e2]
  simp [main, hv, github_output, hw, List.append_assoc]

theorem main_env_some_unwritable (d : TomlData) (writable : List Char → Bool)
    (w : World) {v : Version} {path : List Char}
    (hv : read_version d = .ok v) (hw : writable path = false) :
    main d ⟨some path⟩ writable w = (w, some .ioError) := by
  simp [main, hv, github_output, hw]

theorem main_read_error (d : TomlData) (env : Env) (writable : List Char → Bool)
    (w : World) {e : Err} (he : read_version d = .error e) :
    main d env writable w = (w, some e) := by
  simp [main, he]

/-! Claim theorems. -/

/-- Claim C1: for every valid semantic version string stored in the
manifest's package version field, the value emitted under the `version` key
(`str` of the parsed `Version`, which `main` passes to `github_output`)
equals the original string exactly, prerelease and build suffixes included:
parsing and then formatting reproduce the input. -/
theorem c1_version_roundtrip {s : List Char} {v : Version}
    (h : parseVersion s = some v) : versionStr v = s := by
  obtain ⟨ma, mi, pa, pre, bu⟩ := v
  obtain ⟨core, hcore, hs, hpre, hbu⟩ := parseVersion_eq_some h
  dsimp only at hcore hs hpre hbu
  subst hs
  rcases hpre with hpre | ⟨p, hpe, hpv⟩
  · subst hpre
    rcases hbu with hbu | ⟨b, hbe, hbv⟩
    · subst hbu
      rw [parseCore_eq hcore]
      simp [versionStr]
    · subst hbe
      have hbne : b.isEmpty = false := by
        cases b with
        | nil => exact absurd hbv (by decide)
        | cons c t => rfl
      rw [parseCore_eq hcore]
      simp [versionStr, hbne]
  · subst hpe
    have hpne : p.isEmpty = false := by
      cases p with
      | nil => exact absurd hpv (by decide)
      | cons c t => rfl
    rcases hbu with hbu | ⟨b, hbe, hbv⟩
    · subst hbu
      rw [parseCore_eq hcore]
      simp [versionStr, hpne]
    · subst hbe
      have hbne : b.isEmpty = false := by
        cases b with
        | nil => exact absurd hbv (by decide)
        | cons c t => rfl
      rw [parseCore_eq hcore]
      simp [versionStr, hpne, hbne]

/-- Witness for C1 at the concrete version `1.2.3-rc.1+b05`. -/
theorem c1_version_roundtrip_witness :
    parseVersion (strL "1.2.3-rc.1+b05") =
      some ⟨1, 2, 3, some (strL "rc.1"), some (strL "b05")⟩ ∧
    versionStr ⟨1, 2, 3, some (strL "rc.1"), some (strL "b05")⟩ =
      strL "1.2.3-rc.1+b05" :=
  ⟨by decide, c1_version_roundtrip (by decide)⟩

/-- Claim C2: for every valid version in the manifest, the value emitted
under the `prerelease` key is exactly `"true"` when the parsed version
carries a non-empty prerelease component and exactly `"false"` otherwise
(equivalently, when it carries none). -/
theorem c2_prerelease_output {s : List Char} {v : Version}
    (h : parseVersion s = some v) :
    (boolStrLower (prereleaseFlag v) = strL "true" ↔
      ∃ p, v.prerelease = some p ∧ p ≠ []) ∧
    (boolStrLower (prereleaseFlag v) = strL "false" ↔ v.prerelease = none) := by
  rcases prerelease_inv h with hn | ⟨p, hp, hne⟩
  · have hf : prereleaseFlag v = false := by simp [prereleaseFlag, hn]
    rw [hf]
    constructor
    · constructor
      · intro he
        exact absurd he (by decide)
      · rintro ⟨q, hq, -⟩
        rw [hn] at hq
        exact absurd hq (by simp)
    · exact ⟨fun _ => hn, fun _ => rfl⟩
  · have hpe : p.isEmpty = false := by
      cases p with
      | nil => exact absurd rfl hne
      | cons c t => rfl
    have hf : prereleaseFlag v = true := by simp [prereleaseFlag, hp, hpe]
    rw [hf]
    constructor
    · exact ⟨fun _ => ⟨p, hp, hne⟩, fun _ => rfl⟩
    · constructor
      · intro he
        exact absurd he (by decide)
      · intro hq
        rw [hq] at hp
        exact absurd hp (by simp)

/-- Witness for C2 at the concrete version `1.0.0-alpha`. -/
theorem c2_prerelease_output_witness :
    parseVersion (strL "1.0.0-alpha") =
      some ⟨1, 0, 0, some (strL "alpha"), none⟩ ∧
    ((boolStrLower (prereleaseFlag ⟨1, 0, 0, some (strL "alpha"), none⟩) =
        strL "true" ↔
      ∃ p, (⟨1, 0, 0, some (strL "alpha"), none⟩ : Version).prerelease = some p ∧
        p ≠ []) ∧
    (boolStrLower (prereleaseFlag ⟨1, 0, 0, some (strL "alpha"), none⟩) =
        strL "false" ↔
      (⟨1, 0, 0, some (strL "alpha"), none⟩ : Version).prerelease = none)) :=
  ⟨by decide,
    @c2_prerelease_output (strL "1.0.0-alpha")
      ⟨1, 0, 0, some (strL "alpha"), none⟩ (by decide)⟩

/-- Claim C3 records a code bug.  This theorem evaluates the code at the
failing input: with the manifest version `1.2.3`, `GITHUB_OUTPUT` set to a
writable path and an empty prior file, the run appends the single chunk
`version=1.2.3prerelease=false` — the two pairs run together with no
newline between or after them — rather than two `key=value` lines. -/
theorem c3_file_run_together :
    main ⟨some ⟨some (strL "1.2.3")⟩⟩ ⟨some (strL "out.txt")⟩
        (fun _ => true) ⟨[], []⟩ =
      (⟨[], strL "version=1.2.3prerelease=false"⟩, none) ∧
    '\n' ∉ (main ⟨some ⟨some (strL "1.2.3")⟩⟩ ⟨some (strL "out.txt")⟩
        (fun _ => true) ⟨[], []⟩).1.file :=
  ⟨by decide, by decide⟩

/-- Claim C4: when `GITHUB_OUTPUT` is unset, both pairs are printed to
standard output, each as a `key=value` line of its own: `version=...`
followed by `prerelease=...`, each terminated by a newline. -/
theorem c4_stdout_fallback (d : TomlData) (writable : List Char → Bool)
    (w : World) {v : Version} (hv : read_version d = .ok v) :
    main d ⟨none⟩ writable w =
      ({ w with stdout := w.stdout
          ++ (strL "version=" ++ versionStr v ++ ['\n'])
          ++ (strL "prerelease=" ++ boolStrLower (prereleaseFlag v) ++ ['\n']) },
        none) :=
  main_env_none d writable w hv

/-- Witness for C4 with manifest version `2.5.0`. -/
theorem c4_stdout_fallback_witness :
    read_version ⟨some ⟨some (strL "2.5.0")⟩⟩ = .ok ⟨2, 5, 0, none, none⟩ ∧
    main ⟨some ⟨some (strL "2.5.0")⟩⟩ ⟨none⟩ (fun _ => true) ⟨[], []⟩ =
      (⟨strL "version=2.5.0\nprerelease=false\n", []⟩, none) :=
  ⟨rfl,
    c4_stdout_fallback ⟨some ⟨some (strL "2.5.0")⟩⟩ (fun _ => true)
      ⟨[], []⟩ rfl⟩

/-- Claim C5: in every successful run the `version` pair is emitted
strictly before the `prerelease` pair, and the emitted output is a function
of the parsed manifest version and of whether `GITHUB_OUTPUT` is present:
with it absent the two lines go to standard output in that order, with it
present the two chunks go to the file in that order, and nothing else
depends on the environment. -/
theorem c5_emit_order_deterministic (d : TomlData) (env : Env)
    (writable : List Char → Bool) (w w' : World)
    (h : main d env writable w = (w', none)) :
    ∃ v, read_version d = .ok v ∧
      (env.githubOutput = none →
        w'.file = w.file ∧
        w'.stdout = w.stdout
          ++ (strL "version=" ++ versionStr v ++ ['\n'])
          ++ (strL "prerelease=" ++ boolStrLower (prereleaseFlag v) ++ ['\n'])) ∧
      (env.githubOutput ≠ none →
        w'.stdout = w.stdout ∧
        w'.file = w.file
          ++ (strL "version=" ++ versionStr v)
          ++ (strL "prerelease=" ++ boolStrLower (prereleaseFlag v))) := by
  obtain ⟨go⟩ := env
  cases hv : read_version d with
  | error e =>
    rw [main_read_error _ _ _ _ hv] at h
    simp at h
  | ok v =>
    cases go with
    | none =>
      rw [main_env_none _ _ _ hv] at h
      injection h with h1 h2
      subst h1
      exact ⟨v, rfl, fun _ => ⟨rfl, rfl⟩, fun hne => absurd rfl hne⟩
    | some path =>
      cases hw : writable path with
      | false =>
        rw [main_env_some_unwritable _ _ _ hv hw] at h
        injection h with h1 h2
        exact absurd h2 (by simp)
      | true =>
        rw [main_env_some_writable _ _ _ hv hw] at h
        injection h with h1 h2
        subst h1
        refine ⟨v, rfl, fun hgo => absurd hgo (by simp), fun _ => ⟨rfl, rfl⟩⟩

/-- Witness for C5: a successful standard-output run with version
`2.5.0-rc.1`. -/
theorem c5_emit_order_deterministic_witness :
    main ⟨some ⟨some (strL "2.5.0-rc.1")⟩⟩ ⟨none⟩ (fun _ => true) ⟨[], []⟩ =
      (⟨strL "version=2.5.0-rc.1\nprerelease=true\n", []⟩, none) ∧
    ∃ v, read_version ⟨some ⟨some (strL "2.5.0-rc.1")⟩⟩ = .ok v ∧
      ((⟨none⟩ : Env).githubOutput = none →
        (⟨strL "version=2.5.0-rc.1\nprerelease=true\n", []⟩ : World).file =
          (⟨[], []⟩ : World).file ∧
        (⟨strL "version=2.5.0-rc.1\nprerelease=true\n", []⟩ : World).stdout =
          (⟨[], []⟩ : World).stdout
          ++ (strL "version=" ++ versionStr v ++ ['\n'])
          ++ (strL "prerelease=" ++ boolStrLower (prereleaseFlag v) ++ ['\n'])) ∧
      ((⟨none⟩ : Env).githubOutput ≠ none →
        (⟨strL "version=2.5.0-rc.1\nprerelease=true\n", []⟩ : World).stdout =
          (⟨[], []⟩ : World).stdout ∧
        (⟨strL "version=2.5.0-rc.1\nprerelease=true\n", []⟩ : World).file =
          (⟨[], []⟩ : World).file
          ++ (strL "version=" ++ versionStr v)
          ++ (strL "prerelease=" ++ boolStrLower (prereleaseFlag v))) :=
  ⟨by decide,
    c5_emit_order_deterministic ⟨some ⟨some (strL "2.5.0-rc.1")⟩⟩ ⟨none⟩
      (fun _ => true) ⟨[], []⟩
      ⟨strL "version=2.5.0-rc.1\nprerelease=true\n", []⟩ (by decide)⟩

/-- Claim C6: a manifest missing the version field (no `[package]` table or
no `version` key) or carrying an unparseable version string makes the run
terminate with an uncaught exception — a non-zero exit — before anything is
emitted: the world is unchanged. -/
theorem c6_invalid_manifest_no_output (d : TomlData) (env : Env)
    (writable : List Char → Bool) (w : World)
    (h : d.package = none ∨
      (∃ pkg, d.package = some pkg ∧ pkg.version = none) ∨
      (∃ pkg s, d.package = some pkg ∧ pkg.version = some s ∧
        parseVersion s = none)) :
    ∃ e, main d env writable w = (w, some e) := by
  rcases h with h | ⟨pkg, hp, hvn⟩ | ⟨pkg, s, hp, hvs, hps⟩
  · exact ⟨.keyError, main_read_error _ _ _ _ (by simp [read_version, h])⟩
  · exact ⟨.keyError, main_read_error _ _ _ _ (by simp [read_version, hp, hvn])⟩
  · exact ⟨.valueError, main_read_error _ _ _ _ (by simp [read_version, hp, hvs, hps])⟩

/-- Witness for C6: the unparseable manifest version `bogus`. -/
theorem c6_invalid_manifest_no_output_witness :
    parseVersion (strL "bogus") = none ∧
    ∃ e, main ⟨some ⟨some (strL "bogus")⟩⟩ ⟨none⟩ (fun _ => true) ⟨[], []⟩ =
      (⟨[], []⟩, some e) :=
  ⟨by decide,
    c6_invalid_manifest_no_output ⟨some ⟨some (strL "bogus")⟩⟩ ⟨none⟩
      (fun _ => true) ⟨[], []⟩
      (Or.inr (Or.inr ⟨⟨some (strL "bogus")⟩, strL "bogus", rfl, rfl, by decide⟩))⟩

/-- Claim C7: when `GITHUB_OUTPUT` is set but the named file cannot be
opened for append, the `OSError` propagates and the run fails with a
non-zero exit; nothing falls back to standard output and nothing is
silently dropped — the world is unchanged and the error is reported. -/
theorem c7_unwritable_output_fails (d : TomlData)
    (writable : List Char → Bool) (w : World) {v : Version} {path : List Char}
    (hv : read_version d = .ok v) (hw : writable path = false) :
    main d ⟨some path⟩ writable w = (w, some .ioError) :=
  main_env_some_unwritable d writable w hv hw

/-- Witness for C7: a run against an unwritable output path. -/
theorem c7_unwritable_output_fails_witness :
    read_version ⟨some ⟨some (strL "1.2.3")⟩⟩ = .ok ⟨1, 2, 3, none, none⟩ ∧
    main ⟨some ⟨some (strL "1.2.3")⟩⟩ ⟨some (strL "out.txt")⟩
        (fun _ => false) ⟨[], []⟩ =
      (⟨[], []⟩, some .ioError) :=
  ⟨rfl,
    c7_unwritable_output_fails ⟨some ⟨some (strL "1.2.3")⟩⟩ (fun _ => false)
      ⟨[], []⟩ rfl rfl⟩

/-- Claim C8: a `Version` produced by the manifest reader satisfies the
invariant that its prerelease component is either absent or a non-empty
label.  (Immutability holds by construction: the embedding is pure, and no
operation of the script rebuilds or modifies a parsed `Version`.) -/
theorem c8_prerelease_invariant {s : List Char} {v : Version}
    (h : parseVersion s = some v) :
    v.prerelease = none ∨ ∃ p, v.prerelease = some p ∧ p ≠ [] :=
  prerelease_inv h

/-- Witness for C8 at the concrete version `1.0.0-alpha.1`. -/
theorem c8_prerelease_invariant_witness :
    parseVersion (strL "1.0.0-alpha.1") =
      some ⟨1, 0, 0, some (strL "alpha.1"), none⟩ ∧
    ((⟨1, 0, 0, some (strL "alpha.1"), none⟩ : Version).prerelease = none ∨
      ∃ p, (⟨1, 0, 0, some (strL "alpha.1"), none⟩ : Version).prerelease =
        some p ∧ p ≠ []) :=
  ⟨by decide,
    @c8_prerelease_invariant (strL "1.0.0-alpha.1")
      ⟨1, 0, 0, some (strL "alpha.1"), none⟩ (by decide)⟩

/-- Claim C9: when `GITHUB_OUTPUT` is set to a writable path, each emitter
call writes exactly `key=value` with no trailing newline, so a successful
run appends the concatenation `version=<string>prerelease=<true|false>`
to the file with no separator between the two writes. -/
theorem c9_file_append_no_newline (d : TomlData)
    (writable : List Char → Bool) (w : World) {v : Version} {path : List Char}
    (hv : read_version d = .ok v) (hw : writable path = true) :
    main d ⟨some path⟩ writable w =
      ({ w with file := w.file
          ++ (strL "version=" ++ versionStr v)
          ++ (strL "prerelease=" ++ boolStrLower (prereleaseFlag v)) }, none) :=
  main_env_some_writable d writable w hv hw

/-- Witness for C9 with manifest version `1.2.3`. -/
theorem c9_file_append_no_newline_witness :
    read_version ⟨some ⟨some (strL "1.2.3")⟩⟩ = .ok ⟨1, 2, 3, none, none⟩ ∧
    main ⟨some ⟨some (strL "1.2.3")⟩⟩ ⟨some (strL "out.txt")⟩
        (fun _ => true) ⟨[], []⟩ =
      (⟨[], strL "version=1.2.3prerelease=false"⟩, none) :=
  ⟨rfl,
    c9_file_append_no_newline ⟨some ⟨some (strL "1.2.3")⟩⟩ (fun _ => true)
      ⟨[], []⟩ rfl rfl⟩

/-- Claim C10: the emitter's routing depends only on whether
`GITHUB_OUTPUT` is present, never on its value.  With the variable absent
the pair is printed; with it present — any value, the empty string
included — standard output is never touched, and when the named path
cannot be opened the error propagates instead of any fallback. -/
theorem c10_routing_presence_only (writable : List Char → Bool)
    (key value : List Char) (w : World) :
    (github_output ⟨none⟩ writable key value w =
      .ok { w with stdout := w.stdout ++ key ++ '=' :: value ++ ['\n'] }) ∧
    (∀ path w', github_output ⟨some path⟩ writable key value w = .ok w' →
      w'.stdout = w.stdout) ∧
    (∀ path, writable path = false →
      github_output ⟨some path⟩ writable key value w = .error .ioError) := by
  refine ⟨rfl, ?_, ?_⟩
  · intro path w' hgo
    simp only [github_output] at hgo
    by_cases hw : writable path = true
    · rw [if_pos hw] at hgo
      injection hgo with h1
      rw [← h1]
    · rw [if_neg hw] at hgo
      exact absurd hgo (by simp)
  · intro path hw
    simp [github_output, hw]

/-- Witness for C10: with `GITHUB_OUTPUT` set to the empty string and the
empty path unwritable, the emitter raises instead of printing. -/
theorem c10_routing_presence_only_witness :
    ((fun _ : List Char => false) (strL "") = false) ∧
    github_output ⟨some (strL "")⟩ (fun _ => false)
        (strL "version") (strL "1.2.3") ⟨[], []⟩ =
      .error .ioError :=
  ⟨rfl,
    (c10_routing_presence_only (fun _ => false) (strL "version") (strL "1.2.3")
      ⟨[], []⟩).2.2 (strL "") rfl⟩

end ReleaseScript
